import Mathlib

/-!
A shallow embedding of the scheduler core of the HIP-CPU runtime
(`src/include/hip/detail/runtime.hpp`, class `hip::detail::Runtime`).

The runtime owns
  * a control stream (`internal_stream_`) carrying runtime-management tasks,
  * a forward list `streams_` of streams, the null stream being the element
    created by the first call of `null_stream()` (here identified by `nullSid`),
  * a single worker thread (`processor_`) that repeatedly swaps out and runs
    the control stream's batch, then either performs a full drain of the null
    and user streams (`wait_all_streams_`) or backs off.

Machine-level aspects (the mutex inside `Stream::apply`, thread detachment,
the randomized spin count, `std::future` plumbing) are abstracted: an `apply`
call is an atomic step, and a task's completion handle is resolved exactly
when its id is appended to the `invoked` trace, which is how the source
resolves the promise immediately after the callable returns.  Tasks queued on
the null/user streams never mutate the runtime's own state in this layer
(they are event timestamp updates or client work), so executing one merely
records its invocation; control-stream tasks carry the effects the source
gives them (stream creation/removal, full drain, poison).
-/

namespace HipRT

/-- The effect a task's callable has on the runtime state.  `nop` stands for
an arbitrary client callable that does not touch the runtime's structures. -/
inductive TaskEffect where
  | nop : TaskEffect
  | poison : TaskEffect
  | makeStream : TaskEffect
  | destroyStream : Nat → TaskEffect
  | drainAll : TaskEffect
  | updateTimestamp : Nat → TaskEffect
deriving DecidableEq, Repr

/-- A task: a one-shot callable with a completion handle.  `id` identifies the
task (and its handle); `eff` is what its callable does when invoked. -/
structure Task where
  id : Nat
  eff : TaskEffect
deriving DecidableEq, Repr

/-- The runtime's state.  `control` is `internal_stream_`'s queue, `streams`
is `streams_` (front = most recently created; the null stream is the entry
whose first component is `nullSid`), `invoked` is the trace of task ids in
invocation order (a task's completion handle is resolved exactly when its id
enters this trace), `nextSid` supplies fresh stream identities
(`streams_.emplace_front`). -/
structure RState where
  control : List Task
  streams : List (Nat × List Task)
  nullSid : Nat
  invoked : List Nat
  nextSid : Nat
deriving DecidableEq, Repr

/-- Queue of the first stream in the list with the given identity (the node a
`Stream*` points at); empty if absent. -/
def getQ : List (Nat × List Task) → Nat → List Task
  | [], _ => []
  | p :: ps, i => if p.1 = i then p.2 else getQ ps i

/-- Replace the queue of the first stream with the given identity. -/
def setQ : List (Nat × List Task) → Nat → List Task → List (Nat × List Task)
  | [], _, _ => []
  | p :: ps, i, q => if p.1 = i then (p.1, q) :: ps else p :: setQ ps i q

/-- Invoking a task swapped out of a null/user stream: the callable runs with
a discarded poison slot (`bool nop{}; x(nop);`) and the completion handle is
resolved right after, so the runtime-visible effect is the trace entry. -/
def invokeTask (s : RState) (t : Task) : RState :=
  { s with invoked := s.invoked ++ [t.id] }

/-- Run, in order, a batch of tasks swapped out of one stream
(the `for (auto&& x : t) { bool nop{}; x(nop); }` loops of
`wait_all_streams_`). -/
def drainQueue (s : RState) : List Task → RState
  | [] => s
  | t :: ts => drainQueue (invokeTask s t) ts

/-- The `std::for_each` of `wait_all_streams_`: visit every stream node,
swap out its queue and run it.  The parallel execution policy is serialized
in list order; per-stream order is preserved, which is all the runtime
state can observe. -/
def drainStreams (s : RState) : List (Nat × List Task) → RState
  | [] => s
  | p :: ps => drainStreams (drainQueue s p.2) ps

/-- `Runtime::wait_all_streams_`: swap out and run the null stream's batch
(the `std::async` helper), and swap out and run every stream node's batch
(the `std::for_each` over `streams_`, which contains the null stream's node,
by then already emptied).  All queues are left empty. -/
def wait_all_streams_ (s : RState) : RState :=
  let nq := getQ s.streams s.nullSid
  let ss1 := setQ s.streams s.nullSid []
  let s1 := drainQueue { s with streams := ss1 } nq
  let s2 := drainStreams s1 s1.streams
  { s2 with streams := ss1.map (fun p => (p.1, [])) }

/-- Invoke one control-stream task: perform its callable's effect, then
resolve its completion handle (append its id to the trace). -/
def execTask (s : RState) (t : Task) : RState :=
  match t.eff with
  | TaskEffect.makeStream =>
      { s with streams := (s.nextSid, []) :: s.streams,
               nextSid := s.nextSid + 1,
               invoked := s.invoked ++ [t.id] }
  | TaskEffect.destroyStream sid =>
      { s with streams := s.streams.filter (fun p => p.1 != sid),
               invoked := s.invoked ++ [t.id] }
  | TaskEffect.drainAll =>
      let s1 := wait_all_streams_ s
      { s1 with invoked := s1.invoked ++ [t.id] }
  | _ => { s with invoked := s.invoked ++ [t.id] }

/-- Run a control batch in order, stopping right after the first task that
sets the poison flag (`x(maybe_poison); if (maybe_poison) return ...`).
Returns the state and whether poison was observed.  Tasks after the first
poison task are dropped with the local vector, uninvoked. -/
def execBatch (s : RState) : List Task → RState × Bool
  | [] => (s, false)
  | t :: ts =>
      let s1 := execTask s t
      if t.eff = TaskEffect.poison then (s1, true) else execBatch s1 ts

/-- The worker's no-pending-work test: the null stream is inspected first;
only when it is empty does the `std::none_of` scan over the stream nodes run
(the scan includes the null stream's node, by then known empty). -/
def backoffDecision (s : RState) : Bool :=
  (getQ s.streams s.nullSid).isEmpty && s.streams.all (fun p => p.2.isEmpty)

/-- One iteration of the worker loop in `Runtime::processor_`: atomically
swap out the whole control batch and run it; on poison, perform a final full
drain and terminate (second component `true`).  Otherwise decide whether
work is pending and either perform a full drain or back off (the randomized
spin leaves the runtime state unchanged). -/
def workerStep (s : RState) : RState × Bool :=
  let r := execBatch { s with control := [] } s.control
  if r.2 then (wait_all_streams_ r.1, true)
  else if backoffDecision r.1 then (r.1, false)
  else (wait_all_streams_ r.1, false)

/-- Iterate the worker loop `n` times. -/
def runWorker (s : RState) : Nat → RState
  | 0 => s
  | n + 1 => runWorker (workerStep s).1 n

/-- `Runtime::synchronize` (producer side): push a control task whose
callable is `wait_all_streams_()`; the caller then blocks on its handle. -/
def synchronize (s : RState) (tid : Nat) : RState :=
  { s with control := s.control ++ [⟨tid, TaskEffect.drainAll⟩] }

/-- `Runtime::destroy_stream_async`: push a control task whose callable is
`streams_.remove_if(address = s)`; return its completion handle. -/
def destroy_stream_async (s : RState) (sid tid : Nat) : RState :=
  { s with control := s.control ++ [⟨tid, TaskEffect.destroyStream sid⟩] }

/-- `Runtime::make_stream_async`: push a control task that emplaces a new
stream at the front of `streams_` and resolves the caller's promise with it. -/
def make_stream_async (s : RState) (tid : Nat) : RState :=
  { s with control := s.control ++ [⟨tid, TaskEffect.makeStream⟩] }

/-- `Runtime::Cleaner_::~Cleaner_`: push the poison task on the control
stream, then join the worker — which runs its next iteration, observes the
poison and returns after a final full drain.  The destructor then waits on
the poison task's handle. -/
def cleanerShutdown (s : RState) (pid : Nat) : RState × Bool :=
  workerStep { s with control := s.control ++ [⟨pid, TaskEffect.poison⟩] }

/-- An event (`hip::detail::Event` as the runtime consumes it): identity,
the all-synchronising flag, and the completion handles attached to it. -/
structure Event where
  id : Nat
  allSync : Bool
  doneSignals : List Nat
deriving DecidableEq, Repr

/-- `mark_as_all_synchronising(*p)`. -/
def mark_as_all_synchronising (e : Event) : Event :=
  { e with allSync := true }

/-- `add_done_signal(*p, r.get_future())`. -/
def add_done_signal (e : Event) (tid : Nat) : Event :=
  { e with doneSignals := e.doneSignals ++ [tid] }

/-- `Runtime::push_task(Event* p, Stream* s)`: when `s` is null, substitute
the null stream and mark the event all-synchronising; build the task whose
callable is `update_timestamp(*p)`, attach its completion handle to the
event, and push it onto the stream. -/
def push_task (e : Event) (sOpt : Option Nat) (st : RState) (tid : Nat) :
    Event × RState :=
  let pr := match sOpt with
    | none => (st.nullSid, mark_as_all_synchronising e)
    | some sid => (sid, e)
  let r : Task := ⟨tid, TaskEffect.updateTimestamp e.id⟩
  let e2 := add_done_signal pr.2 tid
  (e2, { st with streams := setQ st.streams pr.1 (getQ st.streams pr.1 ++ [r]) })

/-- Error codes (`hipError_t`); `hipSuccess` is 0. -/
abbrev hipError_t := Nat

def hipSuccess : hipError_t := 0

/-- The thread-local error slots, as a map from thread identity to the value
of its `static thread_local hipError_t r{hipSuccess}`.  Threads that never
touched their slot are absent and read the initializer. -/
abbrev TLS := List (Nat × hipError_t)

/-- `Runtime::last_error_()` read on a given thread: the thread's slot,
value-initialized to `hipSuccess` on first access. -/
def last_error_ : TLS → Nat → hipError_t
  | [], _ => hipSuccess
  | p :: ps, tid => if p.1 = tid then p.2 else last_error_ ps tid

/-- Store into a thread's slot. -/
def writeTLS : TLS → Nat → hipError_t → TLS
  | [], tid, e => [(tid, e)]
  | p :: ps, tid, e => if p.1 = tid then (tid, e) :: ps else p :: writeTLS ps tid e

/-- `Runtime::last_error()`. -/
def last_error (tls : TLS) (tid : Nat) : hipError_t :=
  last_error_ tls tid

/-- `Runtime::set_last_error`: `std::exchange(last_error_(), e)` on the
calling thread — returns the previous value, stores the new one. -/
def set_last_error (tls : TLS) (tid : Nat) (e : hipError_t) :
    hipError_t × TLS :=
  (last_error_ tls tid, writeTLS tls tid e)

/-- The control batch prefix the worker actually runs: everything up to and
including the first poison task. -/
def execUpToPoison : List Task → List Task
  | [] => []
  | t :: ts => if t.eff = TaskEffect.poison then [t] else t :: execUpToPoison ts

/-- Ids of all tasks queued on a list of streams, in stream-list order. -/
def idsOf : List (Nat × List Task) → List Nat
  | [] => []
  | p :: ps => p.2.map Task.id ++ idsOf ps

/-- Ids of all tasks queued on the null/user streams of a state. -/
def queueIds (s : RState) : List Nat := idsOf s.streams

/-- Ids of all tasks queued on the control stream. -/
def controlIds (s : RState) : List Nat := s.control.map Task.id

/-- Ids of every task queued anywhere in a state. -/
def allTaskIds (s : RState) : List Nat := controlIds s ++ queueIds s

/-- Task `t` sits in the queue of the stream with identity `sid`. -/
def queuedOn (s : RState) (sid : Nat) (t : Task) : Prop :=
  ∃ p, p ∈ s.streams ∧ p.1 = sid ∧ t ∈ p.2

lemma drainQueue_eq (q : List Task) :
    ∀ s : RState, drainQueue s q = { s with invoked := s.invoked ++ q.map Task.id } := by
  induction q with
  | nil => intro s; simp [drainQueue]
  | cons t ts ih => intro s; simp [drainQueue, invokeTask, ih]

lemma drainStreams_eq (qs : List (Nat × List Task)) :
    ∀ s : RState, drainStreams s qs = { s with invoked := s.invoked ++ idsOf qs } := by
  induction qs with
  | nil => intro s; simp [drainStreams, idsOf]
  | cons p ps ih => intro s; simp [drainStreams, drainQueue_eq, idsOf, ih]

lemma wait_all_streams_eq (s : RState) :
    wait_all_streams_ s =
      { s with
          streams := (setQ s.streams s.nullSid []).map (fun p => (p.1, [])),
          invoked := s.invoked ++ ((getQ s.streams s.nullSid).map Task.id ++
            idsOf (setQ s.streams s.nullSid [])) } := by
  simp [wait_all_streams_, drainQueue_eq, drainStreams_eq]

lemma mem_idsOf (ss : List (Nat × List Task)) (p : Nat × List Task) (t : Task)
    (hp : p ∈ ss) (ht : t ∈ p.2) : t.id ∈ idsOf ss := by
  induction ss with
  | nil => cases hp
  | cons q qs ih =>
      rcases List.mem_cons.mp hp with rfl | hp
      · exact List.mem_append_left _ (List.mem_map.mpr ⟨t, ht, rfl⟩)
      · exact List.mem_append_right _ (ih hp)

lemma mem_idsOf_getQ (ss : List (Nat × List Task)) (i x : Nat)
    (hx : x ∈ (getQ ss i).map Task.id) : x ∈ idsOf ss := by
  induction ss with
  | nil => simp [getQ] at hx
  | cons q qs ih =>
      by_cases h : q.1 = i
      · simp only [getQ, if_pos h] at hx
        exact List.mem_append_left _ hx
      · simp only [getQ, if_neg h] at hx
        exact List.mem_append_right _ (ih hx)

lemma mem_idsOf_setQ_empty (ss : List (Nat × List Task)) (i x : Nat)
    (hx : x ∈ idsOf (setQ ss i [])) : x ∈ idsOf ss := by
  induction ss with
  | nil => simp only [setQ] at hx; exact hx
  | cons q qs ih =>
      by_cases h : q.1 = i
      · simp only [setQ, if_pos h, idsOf, List.map_nil, List.nil_append] at hx
        exact List.mem_append_right _ hx
      · simp only [setQ, if_neg h, idsOf, List.mem_append] at hx
        rcases hx with hx | hx
        · exact List.mem_append_left _ hx
        · exact List.mem_append_right _ (ih hx)

lemma idsOf_emptied (ss : List (Nat × List Task)) :
    idsOf (ss.map (fun p => (p.1, []))) = [] := by
  induction ss with
  | nil => simp [idsOf]
  | cons q qs ih => simp [idsOf, ih]

lemma mem_idsOf_filter (ss : List (Nat × List Task)) (pr : Nat × List Task → Bool)
    (x : Nat) (hx : x ∈ idsOf (ss.filter pr)) : x ∈ idsOf ss := by
  induction ss with
  | nil => exact hx
  | cons q qs ih =>
      by_cases h : pr q
      · rw [List.filter_cons_of_pos h] at hx
        simp only [idsOf, List.mem_append] at hx
        rcases hx with hx | hx
        · exact List.mem_append_left _ hx
        · exact List.mem_append_right _ (ih hx)
      · rw [List.filter_cons_of_neg (by simpa using h)] at hx
        exact List.mem_append_right _ (ih hx)

lemma mem_getQ_or_setQ (ss : List (Nat × List Task)) (i : Nat)
    (p : Nat × List Task) (t : Task) (hp : p ∈ ss) (ht : t ∈ p.2) :
    t.id ∈ (getQ ss i).map Task.id ∨ t.id ∈ idsOf (setQ ss i []) := by
  induction ss with
  | nil => cases hp
  | cons q qs ih =>
      by_cases h : q.1 = i
      · simp only [getQ, setQ, if_pos h, idsOf, List.map_nil, List.nil_append]
        rcases List.mem_cons.mp hp with rfl | hp
        · exact Or.inl (List.mem_map.mpr ⟨t, ht, rfl⟩)
        · exact Or.inr (mem_idsOf qs p t hp ht)
      · simp only [getQ, setQ, if_neg h, idsOf]
        rcases List.mem_cons.mp hp with rfl | hp
        · exact Or.inr (List.mem_append_left _ (List.mem_map.mpr ⟨t, ht, rfl⟩))
        · rcases ih hp with hl | hr
          · exact Or.inl hl
          · exact Or.inr (List.mem_append_right _ hr)

lemma mem_invoked_wait_all (s : RState) (p : Nat × List Task) (t : Task)
    (hp : p ∈ s.streams) (ht : t ∈ p.2) :
    t.id ∈ (wait_all_streams_ s).invoked := by
  rw [wait_all_streams_eq]
  refine List.mem_append_right _ ?_
  rcases mem_getQ_or_setQ s.streams s.nullSid p t hp ht with h | h
  · exact List.mem_append_left _ h
  · exact List.mem_append_right _ h

lemma invoked_mono_wait_all (s : RState) (x : Nat) (hx : x ∈ s.invoked) :
    x ∈ (wait_all_streams_ s).invoked := by
  rw [wait_all_streams_eq]
  exact List.mem_append_left _ hx

lemma invoked_wait_all_sub (s : RState) (x : Nat)
    (hx : x ∈ (wait_all_streams_ s).invoked) : x ∈ s.invoked ∨ x ∈ queueIds s := by
  rw [wait_all_streams_eq] at hx
  simp only [List.mem_append] at hx
  rcases hx with hx | hx | hx
  · exact Or.inl hx
  · exact Or.inr (mem_idsOf_getQ _ _ _ hx)
  · exact Or.inr (mem_idsOf_setQ_empty _ _ _ hx)

lemma queueIds_wait_all (s : RState) : queueIds (wait_all_streams_ s) = [] := by
  rw [wait_all_streams_eq]
  exact idsOf_emptied _

lemma control_wait_all (s : RState) : (wait_all_streams_ s).control = s.control := by
  rw [wait_all_streams_eq]

lemma nullSid_wait_all (s : RState) : (wait_all_streams_ s).nullSid = s.nullSid := by
  rw [wait_all_streams_eq]

lemma queuedOn_of_streams_eq (s s' : RState) (sid : Nat) (t : Task)
    (h : s'.streams = s.streams) (hq : queuedOn s sid t) : queuedOn s' sid t := by
  obtain ⟨p, hp, h1, h2⟩ := hq
  exact ⟨p, h ▸ hp, h1, h2⟩

lemma execTask_control (s : RState) (t : Task) :
    (execTask s t).control = s.control := by
  obtain ⟨n, eff⟩ := t
  cases eff <;> simp [execTask, control_wait_all]

lemma execTask_nullSid (s : RState) (t : Task) :
    (execTask s t).nullSid = s.nullSid := by
  obtain ⟨n, eff⟩ := t
  cases eff <;> simp [execTask, nullSid_wait_all]

lemma execTask_invoked (s : RState) (t : Task) :
    ∃ l, (execTask s t).invoked = s.invoked ++ (l ++ [t.id]) := by
  obtain ⟨n, eff⟩ := t
  cases eff
  case drainAll =>
    exact ⟨(getQ s.streams s.nullSid).map Task.id ++ idsOf (setQ s.streams s.nullSid []),
      by simp [execTask, wait_all_streams_eq]⟩
  all_goals exact ⟨[], by simp [execTask]⟩

lemma invoked_mono_execTask (s : RState) (t : Task) (x : Nat)
    (hx : x ∈ s.invoked) : x ∈ (execTask s t).invoked := by
  obtain ⟨l, hl⟩ := execTask_invoked s t
  rw [hl]
  exact List.mem_append_left _ hx

lemma self_invoked_execTask (s : RState) (t : Task) :
    t.id ∈ (execTask s t).invoked := by
  obtain ⟨l, hl⟩ := execTask_invoked s t
  rw [hl]
  refine List.mem_append_right _ (List.mem_append_right _ ?_)
  simp

lemma invoked_execTask_sub (s : RState) (t : Task) (x : Nat)
    (hx : x ∈ (execTask s t).invoked) :
    x ∈ s.invoked ∨ x = t.id ∨ x ∈ queueIds s := by
  obtain ⟨n, eff⟩ := t
  cases eff <;> simp only [execTask, List.mem_append] at hx
  case drainAll =>
    rcases hx with hx | hx
    · rcases invoked_wait_all_sub s x hx with h | h
      · exact Or.inl h
      · exact Or.inr (Or.inr h)
    · exact Or.inr (Or.inl (by simpa using hx))
  all_goals
    rcases hx with hx | hx
    · exact Or.inl hx
    · exact Or.inr (Or.inl (by simpa using hx))

lemma queueIds_execTask_sub (s : RState) (t : Task) (x : Nat)
    (hx : x ∈ queueIds (execTask s t)) : x ∈ queueIds s := by
  obtain ⟨n, eff⟩ := t
  cases eff <;> simp only [execTask, queueIds] at hx ⊢
  case makeStream => simpa [idsOf] using hx
  case destroyStream sid => exact mem_idsOf_filter _ _ _ hx
  case drainAll =>
    have h0 : idsOf (wait_all_streams_ s).streams = [] := queueIds_wait_all s
    rw [h0] at hx
    cases hx
  all_goals exact hx

lemma queuedOn_execTask (s : RState) (c : Task) (sid : Nat) (t : Task)
    (hne : c.eff ≠ TaskEffect.destroyStream sid)
    (h : t.id ∈ s.invoked ∨ queuedOn s sid t) :
    t.id ∈ (execTask s c).invoked ∨ queuedOn (execTask s c) sid t := by
  rcases h with h | h
  · exact Or.inl (invoked_mono_execTask s c t.id h)
  obtain ⟨n, eff⟩ := c
  cases eff
  case destroyStream sid' =>
    obtain ⟨p, hp, h1, h2⟩ := h
    refine Or.inr ⟨p, ?_, h1, h2⟩
    simp only [execTask]
    refine List.mem_filter.mpr ⟨hp, ?_⟩
    have hss : sid' ≠ sid := by
      intro hcon
      exact hne (by simp [hcon])
    simp [h1]
    exact fun hcon => hss hcon.symm
  case makeStream =>
    obtain ⟨p, hp, h1, h2⟩ := h
    exact Or.inr ⟨p, by simp [execTask, hp], h1, h2⟩
  case drainAll =>
    obtain ⟨p, hp, h1, h2⟩ := h
    refine Or.inl ?_
    have hw : t.id ∈ (wait_all_streams_ s).invoked := mem_invoked_wait_all s p t hp h2
    simp only [execTask]
    exact List.mem_append_left _ hw
  all_goals
    exact Or.inr (queuedOn_of_streams_eq s _ sid t (by simp [execTask]) h)

lemma execBatch_invoked_decomp (l : List Task) :
    ∀ s : RState, ∃ ext, (execBatch s l).1.invoked = s.invoked ++ ext ∧
      ((execUpToPoison l).map Task.id).Sublist ext := by
  induction l with
  | nil => exact fun s => ⟨[], by simp [execBatch, execUpToPoison]⟩
  | cons t ts ih =>
      intro s
      obtain ⟨l0, hl0⟩ := execTask_invoked s t
      by_cases h : t.eff = TaskEffect.poison
      · refine ⟨l0 ++ [t.id], ?_, ?_⟩
        · simp [execBatch, h, hl0]
        · simp only [execUpToPoison, if_pos h, List.map_cons, List.map_nil]
          simp
      · obtain ⟨ext, he, hs⟩ := ih (execTask s t)
        refine ⟨(l0 ++ [t.id]) ++ ext, ?_, ?_⟩
        · simp [execBatch, h, he, hl0]
        · simp only [execUpToPoison, if_neg h, List.map_cons]
          have h1 : [t.id].Sublist (l0 ++ [t.id]) := by simp
          simpa using List.Sublist.append h1 hs

lemma invoked_mono_execBatch (l : List Task) (s : RState) (x : Nat)
    (hx : x ∈ s.invoked) : x ∈ (execBatch s l).1.invoked := by
  obtain ⟨ext, he, _⟩ := execBatch_invoked_decomp l s
  rw [he]
  exact List.mem_append_left _ hx

lemma execBatch_mem_of_no_poison (l : List Task)
    (h : ∀ c ∈ l, c.eff ≠ TaskEffect.poison) :
    ∀ s : RState, ∀ c ∈ l, c.id ∈ (execBatch s l).1.invoked := by
  induction l with
  | nil => intro s c hc; cases hc
  | cons t ts ih =>
      intro s c hc
      have hne : ¬(t.eff = TaskEffect.poison) := h t (List.mem_cons_self t ts)
      rw [show execBatch s (t :: ts) = execBatch (execTask s t) ts by
        simp [execBatch, hne]]
      rcases List.mem_cons.mp hc with rfl | hc
      · exact invoked_mono_execBatch ts (execTask s c) c.id (self_invoked_execTask s c)
      · exact ih (fun c hc => h c (List.mem_cons_of_mem t hc)) (execTask s t) c hc

lemma execBatch_control (l : List Task) :
    ∀ s : RState, (execBatch s l).1.control = s.control := by
  induction l with
  | nil => intro s; rfl
  | cons t ts ih =>
      intro s
      by_cases h : t.eff = TaskEffect.poison
      · simp [execBatch, h, execTask_control]
      · simp [execBatch, h, ih (execTask s t), execTask_control]

lemma execBatch_nullSid (l : List Task) :
    ∀ s : RState, (execBatch s l).1.nullSid = s.nullSid := by
  induction l with
  | nil => intro s; rfl
  | cons t ts ih =>
      intro s
      by_cases h : t.eff = TaskEffect.poison
      · simp [execBatch, h, execTask_nullSid]
      · simp [execBatch, h, ih (execTask s t), execTask_nullSid]

lemma queueIds_execBatch_sub (l : List Task) :
    ∀ (s : RState) (x : Nat), x ∈ queueIds (execBatch s l).1 → x ∈ queueIds s := by
  induction l with
  | nil => intro s x hx; exact hx
  | cons t ts ih =>
      intro s x hx
      by_cases h : t.eff = TaskEffect.poison
      · simp only [execBatch, if_pos h] at hx
        exact queueIds_execTask_sub s t x hx
      · simp only [execBatch, if_neg h] at hx
        exact queueIds_execTask_sub s t x (ih (execTask s t) x hx)

lemma invoked_execBatch_sub (l : List Task) :
    ∀ (s : RState) (x : Nat), x ∈ (execBatch s l).1.invoked →
      x ∈ s.invoked ∨ x ∈ l.map Task.id ∨ x ∈ queueIds s := by
  induction l with
  | nil => intro s x hx; exact Or.inl hx
  | cons t ts ih =>
      intro s x hx
      by_cases h : t.eff = TaskEffect.poison
      · simp only [execBatch, if_pos h] at hx
        rcases invoked_execTask_sub s t x hx with h1 | h1 | h1
        · exact Or.inl h1
        · exact Or.inr (Or.inl (by simp [h1]))
        · exact Or.inr (Or.inr h1)
      · simp only [execBatch, if_neg h] at hx
        rcases ih (execTask s t) x hx with h1 | h1 | h1
        · rcases invoked_execTask_sub s t x h1 with h2 | h2 | h2
          · exact Or.inl h2
          · exact Or.inr (Or.inl (by simp [h2]))
          · exact Or.inr (Or.inr h2)
        · exact Or.inr (Or.inl (List.mem_cons_of_mem _ h1))
        · exact Or.inr (Or.inr (queueIds_execTask_sub s t x h1))

lemma queuedOn_execBatch (l : List Task) (sid : Nat) (t : Task) :
    ∀ s : RState, (∀ c ∈ l, c.eff ≠ TaskEffect.destroyStream sid) →
      (t.id ∈ s.invoked ∨ queuedOn s sid t) →
      (t.id ∈ (execBatch s l).1.invoked ∨ queuedOn (execBatch s l).1 sid t) := by
  induction l with
  | nil => intro s _ h; exact h
  | cons c cs ih =>
      intro s hnd h
      have hstep := queuedOn_execTask s c sid t (hnd c (List.mem_cons_self c cs)) h
      by_cases hp : c.eff = TaskEffect.poison
      · simpa [execBatch, hp] using hstep
      · simp only [execBatch, if_neg hp]
        exact ih (execTask s c) (fun c hc => hnd c (List.mem_cons_of_mem _ hc)) hstep

lemma execBatch_no_poison_eq (l : List Task)
    (h : ∀ c ∈ l, c.eff ≠ TaskEffect.poison) :
    ∀ s : RState, execBatch s l = (List.foldl execTask s l, false) := by
  induction l with
  | nil => intro s; rfl
  | cons t ts ih =>
      intro s
      have hne : ¬(t.eff = TaskEffect.poison) := h t (List.mem_cons_self t ts)
      simp [execBatch, hne, ih (fun c hc => h c (List.mem_cons_of_mem t hc))]

lemma execBatch_append_poison (pre post : List Task) (p : Task)
    (h : ∀ c ∈ pre, c.eff ≠ TaskEffect.poison) (hp : p.eff = TaskEffect.poison) :
    ∀ s : RState, execBatch s (pre ++ p :: post) =
      (execTask (List.foldl execTask s pre) p, true) := by
  induction pre with
  | nil => intro s; simp [execBatch, hp]
  | cons t ts ih =>
      intro s
      have hne : ¬(t.eff = TaskEffect.poison) := h t (List.mem_cons_self t ts)
      simp [execBatch, hne, ih (fun c hc => h c (List.mem_cons_of_mem t hc))]

lemma workerStep_eq (s : RState) :
    workerStep s =
      if (execBatch { s with control := [] } s.control).2 then
        (wait_all_streams_ (execBatch { s with control := [] } s.control).1, true)
      else if backoffDecision (execBatch { s with control := [] } s.control).1 then
        ((execBatch { s with control := [] } s.control).1, false)
      else (wait_all_streams_ (execBatch { s with control := [] } s.control).1, false) :=
  rfl

lemma backoffDecision_eq_false (s : RState) (p : Nat × List Task)
    (hp : p ∈ s.streams) (hne : p.2 ≠ []) : backoffDecision s = false := by
  cases hb : backoffDecision s
  · rfl
  · exfalso
    have hall := (Bool.and_eq_true _ _ |>.mp hb).2
    have := List.all_eq_true.mp hall p hp
    exact hne (List.isEmpty_iff.mp this)

lemma step_resolves (s : RState) (sid : Nat) (t : Task)
    (h : t.id ∈ (execBatch { s with control := [] } s.control).1.invoked ∨
      queuedOn (execBatch { s with control := [] } s.control).1 sid t) :
    t.id ∈ (workerStep s).1.invoked := by
  rw [workerStep_eq]
  by_cases hr : (execBatch { s with control := [] } s.control).2
  · rw [if_pos hr]
    rcases h with h | ⟨p, hp, h1, h2⟩
    · exact invoked_mono_wait_all _ _ h
    · exact mem_invoked_wait_all _ p t hp h2
  · rw [if_neg hr]
    by_cases hb : backoffDecision (execBatch { s with control := [] } s.control).1
    · rw [if_pos hb]
      rcases h with h | ⟨p, hp, h1, h2⟩
      · exact h
      · rw [backoffDecision_eq_false _ p hp (fun hcon => by simp [hcon] at h2)] at hb
        cases hb
    · rw [if_neg hb]
      rcases h with h | ⟨p, hp, h1, h2⟩
      · exact invoked_mono_wait_all _ _ h
      · exact mem_invoked_wait_all _ p t hp h2

lemma mem_invoked_workerStep_of_queued (s : RState) (sid : Nat) (t : Task)
    (hq : queuedOn s sid t)
    (hnd : ∀ c ∈ s.control, c.eff ≠ TaskEffect.destroyStream sid) :
    t.id ∈ (workerStep s).1.invoked := by
  refine step_resolves s sid t ?_
  refine queuedOn_execBatch s.control sid t { s with control := [] } hnd (Or.inr ?_)
  exact queuedOn_of_streams_eq s _ sid t rfl hq

lemma invoked_workerStep_sub (s : RState) (x : Nat)
    (hx : x ∈ (workerStep s).1.invoked) : x ∈ s.invoked ∨ x ∈ allTaskIds s := by
  have hbatch : x ∈ (execBatch { s with control := [] } s.control).1.invoked →
      x ∈ s.invoked ∨ x ∈ allTaskIds s := by
    intro h
    rcases invoked_execBatch_sub s.control _ x h with h1 | h1 | h1
    · exact Or.inl h1
    · exact Or.inr (List.mem_append_left _ h1)
    · exact Or.inr (List.mem_append_right _ h1)
  have hq : x ∈ queueIds (execBatch { s with control := [] } s.control).1 →
      x ∈ allTaskIds s := by
    intro h
    exact List.mem_append_right _
      (queueIds_execBatch_sub s.control { s with control := [] } x h)
  rw [workerStep_eq] at hx
  by_cases hr : (execBatch { s with control := [] } s.control).2
  · rw [if_pos hr] at hx
    rcases invoked_wait_all_sub _ x hx with h | h
    · exact hbatch h
    · exact Or.inr (hq h)
  · rw [if_neg hr] at hx
    by_cases hb : backoffDecision (execBatch { s with control := [] } s.control).1
    · rw [if_pos hb] at hx
      exact hbatch hx
    · rw [if_neg hb] at hx
      rcases invoked_wait_all_sub _ x hx with h | h
      · exact hbatch h
      · exact Or.inr (hq h)

lemma control_workerStep (s : RState) : (workerStep s).1.control = [] := by
  rw [workerStep_eq]
  have hc : (execBatch { s with control := [] } s.control).1.control = [] :=
    execBatch_control s.control _
  by_cases hr : (execBatch { s with control := [] } s.control).2
  · rw [if_pos hr]
    simp [control_wait_all, hc]
  · rw [if_neg hr]
    by_cases hb : backoffDecision (execBatch { s with control := [] } s.control).1
    · rw [if_pos hb]
      exact hc
    · rw [if_neg hb]
      simp [control_wait_all, hc]

lemma queueIds_workerStep_sub (s : RState) (x : Nat)
    (hx : x ∈ queueIds (workerStep s).1) : x ∈ queueIds s := by
  rw [workerStep_eq] at hx
  by_cases hr : (execBatch { s with control := [] } s.control).2
  · rw [if_pos hr] at hx
    rw [show queueIds (wait_all_streams_ (execBatch { s with control := [] } s.control).1) = []
      from queueIds_wait_all _] at hx
    cases hx
  · rw [if_neg hr] at hx
    by_cases hb : backoffDecision (execBatch { s with control := [] } s.control).1
    · rw [if_pos hb] at hx
      exact queueIds_execBatch_sub s.control { s with control := [] } x hx
    · rw [if_neg hb] at hx
      rw [show queueIds (wait_all_streams_ (execBatch { s with control := [] } s.control).1) = []
        from queueIds_wait_all _] at hx
      cases hx

lemma allTaskIds_workerStep_sub (s : RState) (x : Nat)
    (hx : x ∈ allTaskIds (workerStep s).1) : x ∈ allTaskIds s := by
  rcases List.mem_append.mp hx with h | h
  · rw [show controlIds (workerStep s).1 = [] by
      simp [controlIds, control_workerStep]] at h
    cases h
  · exact List.mem_append_right _ (queueIds_workerStep_sub s x h)

lemma runWorker_not_invoked : ∀ (n : Nat) (s : RState) (x : Nat),
    x ∉ s.invoked → x ∉ allTaskIds s → x ∉ (runWorker s n).invoked := by
  intro n
  induction n with
  | zero => intro s x h1 _; exact h1
  | succ n ih =>
      intro s x h1 h2
      refine ih (workerStep s).1 x ?_ ?_
      · intro hcon
        rcases invoked_workerStep_sub s x hcon with h | h
        · exact h1 h
        · exact h2 h
      · intro hcon
        exact h2 (allTaskIds_workerStep_sub s x hcon)

lemma exists_of_mem_idsOf (ss : List (Nat × List Task)) (x : Nat)
    (hx : x ∈ idsOf ss) : ∃ q ∈ ss, ∃ u ∈ q.2, u.id = x := by
  induction ss with
  | nil => cases hx
  | cons q qs ih =>
      rcases List.mem_append.mp hx with h | h
      · obtain ⟨u, hu, he⟩ := List.mem_map.mp h
        exact ⟨q, List.mem_cons_self q qs, u, hu, he⟩
      · obtain ⟨q', hq', hrest⟩ := ih h
        exact ⟨q', List.mem_cons_of_mem q hq', hrest⟩

lemma getQ_setQ_self (ss : List (Nat × List Task)) (i : Nat) (q : List Task)
    (h : i ∈ ss.map Prod.fst) : getQ (setQ ss i q) i = q := by
  induction ss with
  | nil => cases h
  | cons p ps ih =>
      by_cases hp : p.1 = i
      · simp [setQ, getQ, hp]
      · have h' : i ∈ ps.map Prod.fst := by
          rcases List.mem_map.mp h with ⟨r, hr, he⟩
          rcases List.mem_cons.mp hr with rfl | hr
          · exact absurd he hp
          · exact List.mem_map.mpr ⟨r, hr, he⟩
        simp [setQ, getQ, hp, ih h']

lemma last_error_writeTLS_self (tls : TLS) (tid : Nat) (e : hipError_t) :
    last_error_ (writeTLS tls tid e) tid = e := by
  induction tls with
  | nil => simp [writeTLS, last_error_]
  | cons p ps ih =>
      by_cases h : p.1 = tid
      · simp [writeTLS, last_error_, h]
      · simp [writeTLS, last_error_, h, ih]

lemma last_error_writeTLS_other (tls : TLS) (tid tid' : Nat) (e : hipError_t)
    (h : tid' ≠ tid) :
    last_error_ (writeTLS tls tid e) tid' = last_error_ tls tid' := by
  have hn : ¬(tid = tid') := fun hc => h hc.symm
  induction tls with
  | nil => simp [writeTLS, last_error_, hn]
  | cons p ps ih =>
      by_cases hp : p.1 = tid
      · have hpn : ¬(p.1 = tid') := by rw [hp]; exact hn
        simp [writeTLS, last_error_, hp, hpn, hn]
      · simp [writeTLS, last_error_, hp, ih]

lemma last_error_absent (tls : TLS) (tid : Nat)
    (h : ∀ p ∈ tls, p.1 ≠ tid) : last_error_ tls tid = hipSuccess := by
  induction tls with
  | nil => rfl
  | cons p ps ih =>
      have hp : ¬(p.1 = tid) := h p (List.mem_cons_self p ps)
      simp [last_error_, hp]
      exact ih (fun q hq => h q (List.mem_cons_of_mem p hq))

/-!  The claims, as stated, for the ones the code refutes. -/

/-- Claim C1 as stated: in a worker iteration, every task of the swapped-out
control batch is executed. -/
def batchFullyExecuted : Prop :=
  ∀ s : RState, ∀ t ∈ s.control, t.id ∈ (workerStep s).1.invoked

/-- Claim C2 as stated: after `synchronize()` returns (the worker iteration
that runs its control task), every task that was queued on any stream
strictly before the call has been invoked. -/
def syncCompleteness : Prop :=
  ∀ (s : RState) (tid : Nat), ∀ p ∈ RState.streams s, ∀ t ∈ p.2,
    t.id ∈ (workerStep (synchronize s tid)).1.invoked

/-- Claim C7 as stated: every task queued on a stream is eventually
executed by the worker. -/
def noCancellation : Prop :=
  ∀ s : RState, ∀ p ∈ RState.streams s, ∀ t ∈ p.2,
    ∃ n, t.id ∈ (runWorker s n).invoked

/-- The state a C2/C7 run reaches right before the worker's next iteration:
a user stream (identity 5) still holds task 10, and a control task asking
for that stream's destruction is pending. -/
def destroyRaceState : RState :=
  ⟨[⟨1, TaskEffect.destroyStream 5⟩], [(0, []), (5, [⟨10, TaskEffect.nop⟩])], 0, [], 6⟩

/-- A control batch holding the poison task followed by one more task. -/
def poisonRaceState : RState :=
  ⟨[⟨0, TaskEffect.poison⟩, ⟨1, TaskEffect.nop⟩], [(0, [])], 0, [], 2⟩

/-- C4: for every stream, tasks execute and resolve in FIFO enqueue order:
a per-stream pass of a full drain appends the swapped-out queue's ids to the
trace exactly in queue order, and the control-batch execution invokes the
batch's tasks (the prefix up to the first poison task) as an in-order
subsequence of the trace. -/
theorem C4_fifo_order :
    (∀ (s : RState) (q : List Task),
      (drainQueue s q).invoked = s.invoked ++ q.map Task.id) ∧
    (∀ (s : RState) (l : List Task),
      ((execUpToPoison l).map Task.id).Sublist ((execBatch s l).1.invoked)) := by
  constructor
  · intro s q
    rw [drainQueue_eq]
  · intro s l
    obtain ⟨ext, he, hs⟩ := execBatch_invoked_decomp l s
    rw [he]
    exact hs.trans (List.sublist_append_right _ _)

/-- C8: `set_last_error` returns the slot's previous value and stores the
new one; a subsequent `last_error` on the same thread reads it back, and no
other thread's slot changes. -/
theorem C8_last_error_exchange (tls : TLS) (tid tid' : Nat) (e : hipError_t)
    (h : tid' ≠ tid) :
    (set_last_error tls tid e).1 = last_error tls tid ∧
    last_error (set_last_error tls tid e).2 tid = e ∧
    last_error (set_last_error tls tid e).2 tid' = last_error tls tid' := by
  refine ⟨rfl, ?_, ?_⟩
  · exact last_error_writeTLS_self tls tid e
  · exact last_error_writeTLS_other tls tid tid' e h

/-- Witness for C8 at thread 1 writing 7, observer thread 2. -/
theorem C8_last_error_exchange_witness :
    (2 : Nat) ≠ 1 ∧
    ((set_last_error [] 1 7).1 = last_error [] 1 ∧
     last_error (set_last_error [] 1 7).2 1 = 7 ∧
     last_error (set_last_error [] 1 7).2 2 = last_error [] 2) :=
  ⟨by decide, C8_last_error_exchange [] 1 2 7 (by decide)⟩

/-- C10: a thread that never stored into its error slot reads `hipSuccess`:
the thread-local slot is value-initialized to `hipSuccess` on first
access. -/
theorem C10_initial_success (tls : TLS) (tid : Nat)
    (h : ∀ p ∈ tls, p.1 ≠ tid) : last_error tls tid = hipSuccess :=
  last_error_absent tls tid h

/-- Witness for C10: thread 2 never stored, thread 1 did. -/
theorem C10_initial_success_witness :
    (∀ p ∈ ([(1, 5)] : TLS), p.1 ≠ 2) ∧ last_error [(1, 5)] 2 = hipSuccess :=
  ⟨by decide, C10_initial_success [(1, 5)] 2 (by decide)⟩

/-- C5: `push_task` appends a completion-marking task (whose callable is the
event's timestamp update) to the given stream, attaching the event's
completion handle; with no stream argument, the task goes to the null
stream and the event is marked all-synchronising — and the flag is set
exactly in that case (for an event not already all-synchronising). -/
theorem C5_push_task (e : Event) (st : RState) (tid : Nat)
    (he : e.allSync = false) :
    (∀ sid ∈ st.streams.map Prod.fst,
      (push_task e (some sid) st tid).1.allSync = false ∧
      tid ∈ (push_task e (some sid) st tid).1.doneSignals ∧
      getQ (push_task e (some sid) st tid).2.streams sid =
        getQ st.streams sid ++ [⟨tid, TaskEffect.updateTimestamp e.id⟩]) ∧
    (st.nullSid ∈ st.streams.map Prod.fst →
      (push_task e none st tid).1.allSync = true ∧
      tid ∈ (push_task e none st tid).1.doneSignals ∧
      getQ (push_task e none st tid).2.streams st.nullSid =
        getQ st.streams st.nullSid ++ [⟨tid, TaskEffect.updateTimestamp e.id⟩]) := by
  constructor
  · intro sid hsid
    refine ⟨?_, ?_, ?_⟩
    · simp [push_task, add_done_signal, he]
    · simp [push_task, add_done_signal]
    · simp only [push_task]
      exact getQ_setQ_self st.streams sid _ hsid
  · intro hnull
    refine ⟨?_, ?_, ?_⟩
    · simp [push_task, add_done_signal, mark_as_all_synchronising]
    · simp [push_task, add_done_signal]
    · simp only [push_task]
      exact getQ_setQ_self st.streams st.nullSid _ hnull

/-- Witness for C5: recording event 42 against user stream 7, and against
no stream at all, in a state whose null stream has identity 0. -/
theorem C5_push_task_witness :
    (Event.allSync ⟨42, false, []⟩ = false) ∧
    ((∀ sid ∈ (RState.streams ⟨[], [(0, []), (7, [])], 0, [], 8⟩).map Prod.fst,
      (push_task ⟨42, false, []⟩ (some sid) ⟨[], [(0, []), (7, [])], 0, [], 8⟩ 5).1.allSync
        = false ∧
      5 ∈ (push_task ⟨42, false, []⟩ (some sid) ⟨[], [(0, []), (7, [])], 0, [], 8⟩ 5).1.doneSignals ∧
      getQ (push_task ⟨42, false, []⟩ (some sid) ⟨[], [(0, []), (7, [])], 0, [], 8⟩ 5).2.streams sid =
        getQ (RState.streams ⟨[], [(0, []), (7, [])], 0, [], 8⟩) sid ++
          [⟨5, TaskEffect.updateTimestamp 42⟩]) ∧
    (RState.nullSid ⟨[], [(0, []), (7, [])], 0, [], 8⟩ ∈
        (RState.streams ⟨[], [(0, []), (7, [])], 0, [], 8⟩).map Prod.fst →
      (push_task ⟨42, false, []⟩ none ⟨[], [(0, []), (7, [])], 0, [], 8⟩ 5).1.allSync = true ∧
      5 ∈ (push_task ⟨42, false, []⟩ none ⟨[], [(0, []), (7, [])], 0, [], 8⟩ 5).1.doneSignals ∧
      getQ (push_task ⟨42, false, []⟩ none ⟨[], [(0, []), (7, [])], 0, [], 8⟩ 5).2.streams
          (RState.nullSid ⟨[], [(0, []), (7, [])], 0, [], 8⟩) =
        getQ (RState.streams ⟨[], [(0, []), (7, [])], 0, [], 8⟩)
            (RState.nullSid ⟨[], [(0, []), (7, [])], 0, [], 8⟩) ++
          [⟨5, TaskEffect.updateTimestamp 42⟩])) :=
  ⟨rfl, C5_push_task ⟨42, false, []⟩ ⟨[], [(0, []), (7, [])], 0, [], 8⟩ 5 rfl⟩

/-- C7's counterexample: in `destroyRaceState`, task 10 was enqueued on user
stream 5, but the pending destroy control task removes the stream with its
queue, and no later worker iteration ever invokes task 10. -/
theorem C7_counterexample : ¬ noCancellation := by
  intro h
  obtain ⟨n, hn⟩ := h destroyRaceState (5, [⟨10, TaskEffect.nop⟩]) (by decide)
    ⟨10, TaskEffect.nop⟩ (by decide)
  cases n with
  | zero => exact absurd hn (by decide)
  | succ n =>
      have hstep : runWorker destroyRaceState (n + 1) =
          runWorker (workerStep destroyRaceState).1 n := rfl
      rw [hstep] at hn
      exact runWorker_not_invoked n (workerStep destroyRaceState).1 10
        (by decide) (by decide) hn

/-- C7 amended: a task queued on a stream for which no destruction request
is pending on the control stream is invoked by the next worker iteration
(whether via the poison path's final drain, a control drain task, or the
pending-work full drain). -/
theorem C7_eventual_execution (s : RState) (p : Nat × List Task) (t : Task)
    (hp : p ∈ s.streams) (ht : t ∈ p.2)
    (hnd : ∀ c ∈ s.control, c.eff ≠ TaskEffect.destroyStream p.1) :
    t.id ∈ (workerStep s).1.invoked :=
  mem_invoked_workerStep_of_queued s p.1 t ⟨p, hp, rfl, ht⟩ hnd

/-- Witness for the amended C7: task 4 on user stream 7, empty control
stream; one worker iteration invokes it. -/
theorem C7_eventual_execution_witness :
    ((7, [⟨4, TaskEffect.nop⟩]) ∈ RState.streams ⟨[], [(0, []), (7, [⟨4, TaskEffect.nop⟩])], 0, [], 8⟩ ∧
     (⟨4, TaskEffect.nop⟩ : Task) ∈ [⟨4, TaskEffect.nop⟩] ∧
     (∀ c ∈ RState.control ⟨[], [(0, []), (7, [⟨4, TaskEffect.nop⟩])], 0, [], 8⟩,
       c.eff ≠ TaskEffect.destroyStream 7)) ∧
    (4 : Nat) ∈ (workerStep ⟨[], [(0, []), (7, [⟨4, TaskEffect.nop⟩])], 0, [], 8⟩).1.invoked :=
  ⟨⟨by decide, by decide, by decide⟩,
    C7_eventual_execution ⟨[], [(0, []), (7, [⟨4, TaskEffect.nop⟩])], 0, [], 8⟩
      (7, [⟨4, TaskEffect.nop⟩]) ⟨4, TaskEffect.nop⟩ (by decide) (by decide) (by decide)⟩

/-- C9: executing the removal task scheduled by `destroy_stream_async`
removes the stream together with its still-queued tasks; those tasks are
never invoked (their completion handles never resolve) in any number of
further worker iterations, while the removal task's own handle resolves as
soon as the removal ran. -/
theorem C9_destroy_discards (s : RState) (d : Task) (sid : Nat)
    (hd : d.eff = TaskEffect.destroyStream sid) :
    (execTask s d).streams = s.streams.filter (fun p => p.1 != sid) ∧
    (execTask s d).invoked = s.invoked ++ [d.id] ∧
    (∀ p ∈ s.streams, p.1 = sid → ∀ t ∈ p.2,
      t.id ∉ s.invoked → t.id ≠ d.id →
      (∀ c ∈ s.control, c.id ≠ t.id) →
      (∀ q ∈ s.streams, q.1 ≠ sid → ∀ u ∈ q.2, u.id ≠ t.id) →
      ∀ n, t.id ∉ (runWorker (execTask s d) n).invoked) := by
  obtain ⟨did, deff⟩ := d
  cases hd
  refine ⟨rfl, rfl, ?_⟩
  intro p hp hpsid t ht hinv hne hctl hother n
  refine runWorker_not_invoked n _ t.id ?_ ?_
  · intro hcon
    rcases List.mem_append.mp hcon with h | h
    · exact hinv h
    · exact hne (by simpa using h)
  · intro hcon
    rcases List.mem_append.mp hcon with h | h
    · obtain ⟨c, hc, he⟩ := List.mem_map.mp h
      exact hctl c hc he
    · obtain ⟨q, hq, u, hu, he⟩ := exists_of_mem_idsOf _ t.id h
      have hqmem := List.mem_filter.mp hq
      have hqne : q.1 ≠ sid := by simpa using hqmem.2
      exact hother q hqmem.1 hqne u hu he

/-- Witness for C9: destroying stream 5 while task 10 sits on it. -/
theorem C9_destroy_discards_witness :
    (Task.eff ⟨1, TaskEffect.destroyStream 5⟩ = TaskEffect.destroyStream 5) ∧
    ((execTask ⟨[], [(0, []), (5, [⟨10, TaskEffect.nop⟩])], 0, [], 6⟩
        ⟨1, TaskEffect.destroyStream 5⟩).streams =
      (RState.streams ⟨[], [(0, []), (5, [⟨10, TaskEffect.nop⟩])], 0, [], 6⟩).filter
        (fun p => p.1 != 5) ∧
    (execTask ⟨[], [(0, []), (5, [⟨10, TaskEffect.nop⟩])], 0, [], 6⟩
        ⟨1, TaskEffect.destroyStream 5⟩).invoked = [] ++ [1] ∧
    (∀ p ∈ RState.streams ⟨[], [(0, []), (5, [⟨10, TaskEffect.nop⟩])], 0, [], 6⟩,
      p.1 = 5 → ∀ t ∈ p.2,
      t.id ∉ RState.invoked ⟨[], [(0, []), (5, [⟨10, TaskEffect.nop⟩])], 0, [], 6⟩ →
      t.id ≠ Task.id ⟨1, TaskEffect.destroyStream 5⟩ →
      (∀ c ∈ RState.control ⟨[], [(0, []), (5, [⟨10, TaskEffect.nop⟩])], 0, [], 6⟩,
        c.id ≠ t.id) →
      (∀ q ∈ RState.streams ⟨[], [(0, []), (5, [⟨10, TaskEffect.nop⟩])], 0, [], 6⟩,
        q.1 ≠ 5 → ∀ u ∈ q.2, u.id ≠ t.id) →
      ∀ n, t.id ∉ (runWorker (execTask ⟨[], [(0, []), (5, [⟨10, TaskEffect.nop⟩])], 0, [], 6⟩
        ⟨1, TaskEffect.destroyStream 5⟩) n).invoked)) :=
  ⟨rfl, C9_destroy_discards ⟨[], [(0, []), (5, [⟨10, TaskEffect.nop⟩])], 0, [], 6⟩
    ⟨1, TaskEffect.destroyStream 5⟩ 5 rfl⟩

lemma workerStep_control_set (s : RState) (l : List Task) :
    workerStep { s with control := l } =
      (if (execBatch { s with control := [] } l).2 then
        (wait_all_streams_ (execBatch { s with control := [] } l).1, true)
      else if backoffDecision (execBatch { s with control := [] } l).1 then
        ((execBatch { s with control := [] } l).1, false)
      else (wait_all_streams_ (execBatch { s with control := [] } l).1, false)) :=
  rfl

/-- C1's counterexample: with the poison task first in the batch and a
second task behind it, the second task of the swapped-out batch is never
executed — the worker returns right after the poison task. -/
theorem C1_counterexample : ¬ batchFullyExecuted := by
  intro h
  have := h poisonRaceState ⟨1, TaskEffect.nop⟩ (by decide)
  exact absurd this (by decide)

/-- C1 amended: the worker swaps out the whole control batch and executes it
in order, stopping immediately after the first task that sets the poison
flag; when a poison task is present it performs a full drain of all streams
and terminates, and the batch tasks after the poison task are discarded
uninvoked; when no batch task sets poison, every task of the batch is
executed and the loop continues. -/
theorem C1_batch_stops_at_poison :
    (∀ (s : RState) (pre post : List Task) (p : Task),
      s.control = pre ++ p :: post →
      (∀ c ∈ pre, c.eff ≠ TaskEffect.poison) →
      p.eff = TaskEffect.poison →
      (workerStep s).2 = true ∧
      (∀ c ∈ pre, c.id ∈ (workerStep s).1.invoked) ∧
      p.id ∈ (workerStep s).1.invoked ∧
      (workerStep s).1 =
        wait_all_streams_ (execTask (execBatch { s with control := [] } pre).1 p) ∧
      (∀ c ∈ post, c.id ∉ s.invoked → c.id ∉ pre.map Task.id → c.id ≠ p.id →
        c.id ∉ queueIds s → c.id ∉ (workerStep s).1.invoked)) ∧
    (∀ s : RState, (∀ c ∈ s.control, c.eff ≠ TaskEffect.poison) →
      (workerStep s).2 = false ∧
      (∀ c ∈ s.control, c.id ∈ (workerStep s).1.invoked)) := by
  constructor
  · intro s pre post p hc hpre hp
    have hbatch : execBatch { s with control := [] } s.control =
        (execTask (List.foldl execTask { s with control := [] } pre) p, true) := by
      rw [hc]
      exact execBatch_append_poison pre post p hpre hp _
    have hfold : (execBatch { s with control := [] } pre).1 =
        List.foldl execTask { s with control := [] } pre := by
      rw [execBatch_no_poison_eq pre hpre]
    have hws : workerStep s =
        (wait_all_streams_
          (execTask (List.foldl execTask { s with control := [] } pre) p), true) := by
      rw [workerStep_eq, hbatch]
      simp
    refine ⟨by rw [hws], ?_, ?_, ?_, ?_⟩
    · intro c hcm
      have h1 : c.id ∈ (execBatch { s with control := [] } pre).1.invoked :=
        execBatch_mem_of_no_poison pre hpre _ c hcm
      rw [hfold] at h1
      rw [hws]
      exact invoked_mono_wait_all _ _ (invoked_mono_execTask _ p c.id h1)
    · rw [hws]
      exact invoked_mono_wait_all _ _ (self_invoked_execTask _ p)
    · rw [hws, hfold]
    · intro c hcm h1 h2 h3 h4 hcon
      rw [hws] at hcon
      rcases invoked_wait_all_sub _ _ hcon with h5 | h5
      · rcases invoked_execTask_sub _ p c.id h5 with h6 | h6 | h6
        · rw [← hfold] at h6
          rcases invoked_execBatch_sub pre _ c.id h6 with h7 | h7 | h7
          · exact h1 h7
          · exact h2 h7
          · exact h4 h7
        · exact h3 h6
        · rw [← hfold] at h6
          exact h4 (queueIds_execBatch_sub pre { s with control := [] } c.id h6)
      · have h6 := queueIds_execTask_sub _ p c.id h5
        rw [← hfold] at h6
        exact h4 (queueIds_execBatch_sub pre { s with control := [] } c.id h6)
  · intro s hnp
    have hr : (execBatch { s with control := [] } s.control).2 = false := by
      rw [execBatch_no_poison_eq s.control hnp]
    constructor
    · rw [workerStep_eq, hr]
      cases hb : backoffDecision (execBatch { s with control := [] } s.control).1 <;>
        simp [hb]
    · intro c hc
      exact step_resolves s 0 c
        (Or.inl (execBatch_mem_of_no_poison _ hnp _ c hc))

/-- A control batch with one ordinary task and no poison. -/
def noPoisonState : RState := ⟨[⟨4, TaskEffect.nop⟩], [(0, [])], 0, [], 5⟩

/-- Witness for the amended C1: the poison half at `poisonRaceState`, the
no-poison half at `noPoisonState`. -/
theorem C1_batch_stops_at_poison_witness :
    (RState.control poisonRaceState =
        [] ++ ⟨0, TaskEffect.poison⟩ :: [⟨1, TaskEffect.nop⟩] ∧
     (∀ c ∈ ([] : List Task), c.eff ≠ TaskEffect.poison) ∧
     Task.eff ⟨0, TaskEffect.poison⟩ = TaskEffect.poison) ∧
    ((workerStep poisonRaceState).2 = true ∧
     (∀ c ∈ ([] : List Task), c.id ∈ (workerStep poisonRaceState).1.invoked) ∧
     Task.id ⟨0, TaskEffect.poison⟩ ∈ (workerStep poisonRaceState).1.invoked ∧
     (workerStep poisonRaceState).1 =
       wait_all_streams_ (execTask
         (execBatch { poisonRaceState with control := [] } []).1
         ⟨0, TaskEffect.poison⟩) ∧
     (∀ c ∈ ([⟨1, TaskEffect.nop⟩] : List Task), c.id ∉ RState.invoked poisonRaceState →
        c.id ∉ ([] : List Task).map Task.id →
        c.id ≠ Task.id ⟨0, TaskEffect.poison⟩ →
        c.id ∉ queueIds poisonRaceState →
        c.id ∉ (workerStep poisonRaceState).1.invoked)) ∧
    ((∀ c ∈ RState.control noPoisonState, c.eff ≠ TaskEffect.poison) ∧
     ((workerStep noPoisonState).2 = false ∧
      (∀ c ∈ RState.control noPoisonState, c.id ∈ (workerStep noPoisonState).1.invoked))) :=
  ⟨⟨by decide, by decide, rfl⟩,
    C1_batch_stops_at_poison.1 poisonRaceState [] [⟨1, TaskEffect.nop⟩]
      ⟨0, TaskEffect.poison⟩ (by decide) (by decide) rfl,
    by decide,
    C1_batch_stops_at_poison.2 noPoisonState (by decide)⟩

/-- C2's counterexample: in `destroyRaceState`, task 10 was enqueued on user
stream 5 strictly before the `synchronize` call, but the destroy request
already pending on the control stream removes the stream with its queue
before the drain task runs, so task 10 is never invoked even though
`synchronize` returns. -/
theorem C2_counterexample : ¬ syncCompleteness := by
  intro h
  have := h destroyRaceState 2 (5, [⟨10, TaskEffect.nop⟩]) (by decide)
    ⟨10, TaskEffect.nop⟩ (by decide)
  exact absurd this (by decide)

/-- C2 amended: if no poison task is pending, then after the worker
iteration that runs the `synchronize` control task, every control task
enqueued before the call is invoked, the synchronize task's own handle is
resolved, and every task enqueued before the call on the null stream or on
a user stream whose destruction was not requested before the call has been
invoked. -/
theorem C2_synchronize (s : RState) (tid : Nat)
    (hnp : ∀ c ∈ s.control, c.eff ≠ TaskEffect.poison) :
    (∀ c ∈ s.control, c.id ∈ (workerStep (synchronize s tid)).1.invoked) ∧
    tid ∈ (workerStep (synchronize s tid)).1.invoked ∧
    (∀ p ∈ s.streams, (∀ c ∈ s.control, c.eff ≠ TaskEffect.destroyStream p.1) →
      ∀ t ∈ p.2, t.id ∈ (workerStep (synchronize s tid)).1.invoked) := by
  have hnp' : ∀ c ∈ (synchronize s tid).control, c.eff ≠ TaskEffect.poison := by
    intro c hc
    rcases List.mem_append.mp hc with h | h
    · exact hnp c h
    · have hcs : c = ⟨tid, TaskEffect.drainAll⟩ := List.mem_singleton.mp h
      rw [hcs]
      simp
  refine ⟨?_, ?_, ?_⟩
  · intro c hc
    have hm : c ∈ (synchronize s tid).control := List.mem_append_left _ hc
    exact step_resolves (synchronize s tid) 0 c
      (Or.inl (execBatch_mem_of_no_poison _ hnp' _ c hm))
  · have hm : (⟨tid, TaskEffect.drainAll⟩ : Task) ∈ (synchronize s tid).control :=
      List.mem_append_right _ (List.mem_singleton.mpr rfl)
    exact step_resolves (synchronize s tid) 0 ⟨tid, TaskEffect.drainAll⟩
      (Or.inl (execBatch_mem_of_no_poison _ hnp' _ _ hm))
  · intro p hp hnd t ht
    have hnd' : ∀ c ∈ (synchronize s tid).control,
        c.eff ≠ TaskEffect.destroyStream p.1 := by
      intro c hc
      rcases List.mem_append.mp hc with h | h
      · exact hnd c h
      · have hcs : c = ⟨tid, TaskEffect.drainAll⟩ := List.mem_singleton.mp h
        rw [hcs]
        simp
    exact mem_invoked_workerStep_of_queued (synchronize s tid) p.1 t
      ⟨p, hp, rfl, ht⟩ hnd'

/-- The state for the C2 witness: a pending destroy of stream 5 (task 10
queued on it), a surviving user stream 7 with task 11. -/
def syncWitnessState : RState :=
  ⟨[⟨1, TaskEffect.destroyStream 5⟩],
   [(0, []), (5, [⟨10, TaskEffect.nop⟩]), (7, [⟨11, TaskEffect.nop⟩])], 0, [], 8⟩

/-- Witness for the amended C2 at `syncWitnessState` with synchronize id 2. -/
theorem C2_synchronize_witness :
    (∀ c ∈ RState.control syncWitnessState, c.eff ≠ TaskEffect.poison) ∧
    ((∀ c ∈ RState.control syncWitnessState,
        c.id ∈ (workerStep (synchronize syncWitnessState 2)).1.invoked) ∧
     (2 : Nat) ∈ (workerStep (synchronize syncWitnessState 2)).1.invoked ∧
     (∀ p ∈ RState.streams syncWitnessState,
        (∀ c ∈ RState.control syncWitnessState,
          c.eff ≠ TaskEffect.destroyStream p.1) →
        ∀ t ∈ p.2, t.id ∈ (workerStep (synchronize syncWitnessState 2)).1.invoked)) :=
  ⟨by decide, C2_synchronize syncWitnessState 2 (by decide)⟩

/-- C3: after the control batch (no poison seen), the worker checks the null
stream first: non-empty means a full drain with no need to inspect user
streams; with the null stream empty, work is pending exactly when some user
stream is non-empty, and with everything empty the worker backs off,
leaving the state unchanged. -/
theorem C3_null_stream_priming (s s1 : RState)
    (hres : execBatch { s with control := [] } s.control = (s1, false)) :
    (getQ s1.streams s1.nullSid ≠ [] →
      workerStep s = (wait_all_streams_ s1, false)) ∧
    (getQ s1.streams s1.nullSid = [] →
      ((∃ p ∈ s1.streams, p.1 ≠ s1.nullSid ∧ p.2 ≠ []) →
        workerStep s = (wait_all_streams_ s1, false)) ∧
      ((∀ p ∈ s1.streams, p.2 = []) → workerStep s = (s1, false))) := by
  have hws : workerStep s = if backoffDecision s1 then (s1, false)
      else (wait_all_streams_ s1, false) := by
    rw [workerStep_eq, hres]
    simp
  refine ⟨?_, ?_⟩
  · intro h
    have hb : backoffDecision s1 = false := by
      unfold backoffDecision
      cases hq : (getQ s1.streams s1.nullSid).isEmpty
      · rfl
      · exact absurd (List.isEmpty_iff.mp hq) h
    rw [hws, hb]
    simp
  · intro hnull
    refine ⟨?_, ?_⟩
    · rintro ⟨p, hp, _, hne⟩
      rw [hws, backoffDecision_eq_false s1 p hp hne]
      simp
    · intro hall
      have hb : backoffDecision s1 = true := by
        unfold backoffDecision
        rw [show (getQ s1.streams s1.nullSid).isEmpty = true from
          List.isEmpty_iff.mpr hnull]
        rw [show s1.streams.all (fun p => p.2.isEmpty) = true from
          List.all_eq_true.mpr (fun p hp => List.isEmpty_iff.mpr (hall p hp))]
        rfl
      rw [hws, hb]
      simp

/-- A state with an already-empty control stream and a task on the null
stream, used to witness C3's first branch. -/
def nullPrimedState : RState := ⟨[], [(0, [⟨3, TaskEffect.nop⟩])], 0, [], 1⟩

/-- Witness for C3 at `nullPrimedState` (null stream non-empty: full
drain). -/
theorem C3_null_stream_priming_witness :
    (execBatch { nullPrimedState with control := [] } (RState.control nullPrimedState) =
        (nullPrimedState, false)) ∧
    ((getQ (RState.streams nullPrimedState) (RState.nullSid nullPrimedState) ≠ [] →
      workerStep nullPrimedState = (wait_all_streams_ nullPrimedState, false)) ∧
    (getQ (RState.streams nullPrimedState) (RState.nullSid nullPrimedState) = [] →
      ((∃ p ∈ RState.streams nullPrimedState,
          p.1 ≠ RState.nullSid nullPrimedState ∧ p.2 ≠ []) →
        workerStep nullPrimedState = (wait_all_streams_ nullPrimedState, false)) ∧
      ((∀ p ∈ RState.streams nullPrimedState, p.2 = []) →
        workerStep nullPrimedState = (nullPrimedState, false)))) :=
  ⟨by decide, C3_null_stream_priming nullPrimedState nullPrimedState (by decide)⟩

/-- C6: with no poison already pending, the teardown guard's poison task
makes the worker's next iteration terminate; the poison task's completion
handle is resolved already when its invocation returns (before the final
drain completes), it is resolved in the final state, and the final state is
exactly the full drain performed after running the rest of the batch and
the poison task. -/
theorem C6_cleaner_shutdown (s : RState) (pid : Nat)
    (h : ∀ c ∈ s.control, c.eff ≠ TaskEffect.poison) :
    (cleanerShutdown s pid).2 = true ∧
    pid ∈ (execTask (execBatch { s with control := [] } s.control).1
      ⟨pid, TaskEffect.poison⟩).invoked ∧
    pid ∈ (cleanerShutdown s pid).1.invoked ∧
    (cleanerShutdown s pid).1 =
      wait_all_streams_ (execTask (execBatch { s with control := [] } s.control).1
        ⟨pid, TaskEffect.poison⟩) := by
  have hfold : (execBatch { s with control := [] } s.control).1 =
      List.foldl execTask { s with control := [] } s.control := by
    rw [execBatch_no_poison_eq s.control h]
  have hbatch : execBatch { s with control := [] }
      (s.control ++ ⟨pid, TaskEffect.poison⟩ :: []) =
      (execTask (List.foldl execTask { s with control := [] } s.control)
        ⟨pid, TaskEffect.poison⟩, true) :=
    execBatch_append_poison s.control [] ⟨pid, TaskEffect.poison⟩ h rfl _
  have hws : cleanerShutdown s pid =
      (wait_all_streams_ (execTask
        (List.foldl execTask { s with control := [] } s.control)
        ⟨pid, TaskEffect.poison⟩), true) := by
    rw [show cleanerShutdown s pid =
      workerStep { s with control := s.control ++ [⟨pid, TaskEffect.poison⟩] } from rfl]
    rw [workerStep_control_set, hbatch]
    simp
  refine ⟨by rw [hws], ?_, ?_, ?_⟩
  · rw [hfold]
    exact self_invoked_execTask _ ⟨pid, TaskEffect.poison⟩
  · rw [hws]
    exact invoked_mono_wait_all _ _
      (self_invoked_execTask _ ⟨pid, TaskEffect.poison⟩)
  · rw [hws, hfold]

/-- A state with one pending control task and one null-stream task, used to
witness C6. -/
def shutdownState : RState := ⟨[⟨1, TaskEffect.nop⟩], [(0, [⟨3, TaskEffect.nop⟩])], 0, [], 4⟩

/-- Witness for C6 at `shutdownState` with poison id 2. -/
theorem C6_cleaner_shutdown_witness :
    (∀ c ∈ RState.control shutdownState, c.eff ≠ TaskEffect.poison) ∧
    ((cleanerShutdown shutdownState 2).2 = true ∧
     (2 : Nat) ∈ (execTask (execBatch { shutdownState with control := [] }
        (RState.control shutdownState)).1 ⟨2, TaskEffect.poison⟩).invoked ∧
     (2 : Nat) ∈ (cleanerShutdown shutdownState 2).1.invoked ∧
     (cleanerShutdown shutdownState 2).1 =
       wait_all_streams_ (execTask (execBatch { shutdownState with control := [] }
        (RState.control shutdownState)).1 ⟨2, TaskEffect.poison⟩)) :=
  ⟨by decide, C6_cleaner_shutdown shutdownState 2 (by decide)⟩

end HipRT
